import Mathlib

/-!
Verification of the flashcard quiz engine and session orchestrator.

The definitions below are a shallow embedding of the Python sources:
`src/utils/models.py` (Flashcard, QuizResult, SessionStats),
`src/utils/quiz_engine.py` (SequentialMode, RandomMode, AdaptiveMode,
QuizModeFactory) and `src/utils/quiz_session.py` (QuizSession).

Modelling conventions:
- Python `str.strip()` and `str.lower()` are embedded as `py_strip` and
  `py_lower`, character-list functions mirroring their behaviour.
- Mutable card objects shared by reference between the orchestrator, the
  strategies and the result records are modelled by a store
  (`List Flashcard`) indexed by card ids (`Nat`); strategies and results
  hold ids, the orchestrator mutates the store.
- The ambient randomness of `random.shuffle` is modelled by passing the
  shuffled list explicitly; theorems assume it is a permutation.
- `KeyboardInterrupt` during the blocking input wait (the only suspension
  point, per the synchronous execution model) is modelled as an input
  event `Input.interrupt`; the orchestrator's `try/except` is modelled by
  the loop returning an interrupted flag that triggers the
  `show_interrupted` display call.
- Python float division in `accuracy_percent` is embedded as exact
  division in `ℚ`.
-/

set_option autoImplicit false

namespace Quiz

/-- Embedding of Python `str.lower()` (character-wise lowercasing). -/
def py_lower (s : String) : String :=
  ⟨s.data.map Char.toLower⟩

/-- Embedding of Python `str.strip()` (drop leading and trailing
whitespace). -/
def py_strip (s : String) : String :=
  ⟨((s.data.dropWhile Char.isWhitespace).reverse.dropWhile Char.isWhitespace).reverse⟩

/-- Lexicographic comparison of character lists by code point, embedding
Python string ordering for `sorted`. -/
def charListLe : List Char → List Char → Bool
  | [], _ => true
  | _ :: _, [] => false
  | a :: as, b :: bs =>
    if a.toNat < b.toNat then true
    else if b.toNat < a.toNat then false
    else charListLe as bs

/-- Python `<=` on strings (lexicographic by code point). -/
def string_le (a b : String) : Bool :=
  charListLe a.data b.data

/-- Insert a string into a sorted list (helper for `sort_strings`). -/
def insert_sorted (x : String) : List String → List String
  | [] => [x]
  | y :: ys => if string_le x y then x :: y :: ys else y :: insert_sorted x ys

/-- Embedding of Python `sorted` on lists of strings (insertion sort;
agrees with any stable comparison sort on the outcomes used here). -/
def sort_strings : List String → List String
  | [] => []
  | x :: xs => insert_sorted x (sort_strings xs)

/-- Embedding of Python `", ".join(...)`. -/
def join_comma : List String → String
  | [] => ""
  | [s] => s
  | s :: rest => s ++ ", " ++ join_comma rest

/-- A single-quote character as a string (used in the factory's error
message). -/
def squote : String :=
  String.singleton (Char.ofNat 39)

/-- Embedding of `Flashcard` from `src/utils/models.py`: front/back text
plus exposure counters (non-negative Python ints). -/
structure Flashcard where
  front : String
  back : String
  times_shown : Nat := 0
  times_correct : Nat := 0
  deriving Repr, DecidableEq

/-- `Flashcard.times_incorrect` property: `times_shown - times_correct`
(Python int subtraction, so stated over `ℤ`). -/
def Flashcard.times_incorrect (c : Flashcard) : ℤ :=
  (c.times_shown : ℤ) - (c.times_correct : ℤ)

/-- `Flashcard.accuracy` property: `times_correct / times_shown`, `0.0`
if never shown (float division embedded in `ℚ`). -/
def Flashcard.accuracy (c : Flashcard) : ℚ :=
  if c.times_shown = 0 then 0 else (c.times_correct : ℚ) / (c.times_shown : ℚ)

/-- Embedding of `QuizResult` from `src/utils/models.py`, polymorphic in
how the card reference is represented (`Flashcard` value, or a card id
into the session's store). -/
structure QuizResult (κ : Type) where
  card : κ
  user_answer : String
  is_correct : Bool
  deriving Repr, DecidableEq

/-- Embedding of `SessionStats` from `src/utils/models.py`. -/
structure SessionStats (κ : Type) where
  total_questions : Nat
  correct_answers : Nat
  results : List (QuizResult κ) := []
  deriving Repr, DecidableEq

/-- `SessionStats.accuracy_percent` property:
`(correct_answers / total_questions) * 100.0`, `0.0` when
`total_questions == 0` (float arithmetic embedded in `ℚ`). -/
def SessionStats.accuracy_percent {κ : Type} (s : SessionStats κ) : ℚ :=
  if s.total_questions = 0 then 0
  else ((s.correct_answers : ℚ) / (s.total_questions : ℚ)) * 100

/-- `SessionStats.missed_cards` property:
`[r.card for r in self.results if not r.is_correct]`. -/
def SessionStats.missed_cards {κ : Type} (s : SessionStats κ) : List κ :=
  (s.results.filter (fun r => !r.is_correct)).map (fun r => r.card)

/-! ### Quiz mode strategies (`src/utils/quiz_engine.py`)

Strategies never inspect card contents, only shuffle/queue references, so
they are polymorphic in the card type `α` (instantiated with `Flashcard`
for stand-alone reasoning and with `Nat` ids inside the session model). -/

/-- State of `SequentialMode`: the copied card list and the cursor. -/
structure SequentialMode (α : Type) where
  cards : List α
  index : Nat
  deriving Repr, DecidableEq

/-- `SequentialMode.__init__(cards)`. -/
def SequentialMode.init {α : Type} (cards : List α) : SequentialMode α :=
  { cards := cards, index := 0 }

/-- `SequentialMode.next_card`: returns `None` past the end, otherwise the
card at the cursor, advancing the cursor. -/
def SequentialMode.next_card {α : Type} (m : SequentialMode α) :
    Option α × SequentialMode α :=
  if h : m.index < m.cards.length then
    (some (m.cards.get ⟨m.index, h⟩), { m with index := m.index + 1 })
  else
    (none, m)

/-- `SequentialMode.has_more`. -/
def SequentialMode.has_more {α : Type} (m : SequentialMode α) : Bool :=
  m.index < m.cards.length

/-- `SequentialMode.reset`. -/
def SequentialMode.reset {α : Type} (m : SequentialMode α) : SequentialMode α :=
  { m with index := 0 }

/-- State of `RandomMode`: the original list, the shuffled working list and
the cursor. -/
structure RandomMode (α : Type) where
  original : List α
  cards : List α
  index : Nat
  deriving Repr, DecidableEq

/-- `RandomMode.__init__(cards)`: stores the original and installs a
shuffled copy (the outcome of `random.shuffle` is passed explicitly). -/
def RandomMode.init {α : Type} (cards shuffled : List α) : RandomMode α :=
  { original := cards, cards := shuffled, index := 0 }

/-- `RandomMode.next_card`. -/
def RandomMode.next_card {α : Type} (m : RandomMode α) :
    Option α × RandomMode α :=
  if h : m.index < m.cards.length then
    (some (m.cards.get ⟨m.index, h⟩), { m with index := m.index + 1 })
  else
    (none, m)

/-- `RandomMode.has_more`. -/
def RandomMode.has_more {α : Type} (m : RandomMode α) : Bool :=
  m.index < m.cards.length

/-- `RandomMode.reset`: reshuffles the original list and rewinds the
cursor (`_shuffle`); the new shuffle outcome is passed explicitly. -/
def RandomMode.reset {α : Type} (m : RandomMode α) (shuffled : List α) :
    RandomMode α :=
  { m with cards := shuffled, index := 0 }

/-- State of `AdaptiveMode`: the original list, the growing working queue
and the cursor. -/
structure AdaptiveMode (α : Type) where
  original : List α
  queue : List α
  index : Nat
  deriving Repr, DecidableEq

/-- `AdaptiveMode.__init__(cards)`: queue starts as a copy of the deck. -/
def AdaptiveMode.init {α : Type} (cards : List α) : AdaptiveMode α :=
  { original := cards, queue := cards, index := 0 }

/-- `AdaptiveMode.next_card`. -/
def AdaptiveMode.next_card {α : Type} (m : AdaptiveMode α) :
    Option α × AdaptiveMode α :=
  if h : m.index < m.queue.length then
    (some (m.queue.get ⟨m.index, h⟩), { m with index := m.index + 1 })
  else
    (none, m)

/-- `AdaptiveMode.has_more`. -/
def AdaptiveMode.has_more {α : Type} (m : AdaptiveMode α) : Bool :=
  m.index < m.queue.length

/-- `AdaptiveMode.reset`: restores the queue to the original deck and
rewinds the cursor. -/
def AdaptiveMode.reset {α : Type} (m : AdaptiveMode α) : AdaptiveMode α :=
  { m with queue := m.original, index := 0 }

/-- `AdaptiveMode.record_result`: appends the card to the queue when the
answer was incorrect, otherwise does nothing. -/
def AdaptiveMode.record_result {α : Type} (m : AdaptiveMode α) (card : α)
    (correct : Bool) : AdaptiveMode α :=
  if correct then m else { m with queue := m.queue ++ [card] }

/-- The list of cards produced by calling `next_card` repeatedly (at most
`fuel` times) on a `SequentialMode`, stopping at the first `none`. -/
def SequentialMode.next_list {α : Type} : Nat → SequentialMode α → List α
  | 0, _ => []
  | fuel + 1, m =>
    match m.next_card with
    | (none, _) => []
    | (some c, m') => c :: SequentialMode.next_list fuel m'

/-- The list of cards produced by calling `next_card` repeatedly (at most
`fuel` times) on a `RandomMode`, stopping at the first `none`. -/
def RandomMode.next_list {α : Type} : Nat → RandomMode α → List α
  | 0, _ => []
  | fuel + 1, m =>
    match m.next_card with
    | (none, _) => []
    | (some c, m') => c :: RandomMode.next_list fuel m'

/-- The list of cards produced by calling `next_card` repeatedly (at most
`fuel` times) on an `AdaptiveMode`, stopping at the first `none`. -/
def AdaptiveMode.next_list {α : Type} : Nat → AdaptiveMode α → List α
  | 0, _ => []
  | fuel + 1, m =>
    match m.next_card with
    | (none, _) => []
    | (some c, m') => c :: AdaptiveMode.next_list fuel m'

/-- The `AdaptiveMode` states reachable from construction through the
operations of the strategy interface. -/
inductive AdaptiveMode.Reachable {α : Type} : AdaptiveMode α → Prop where
  | init (cards : List α) : AdaptiveMode.Reachable (AdaptiveMode.init cards)
  | step_next {m : AdaptiveMode α} :
      AdaptiveMode.Reachable m → AdaptiveMode.Reachable m.next_card.2
  | step_record {m : AdaptiveMode α} (card : α) (correct : Bool) :
      AdaptiveMode.Reachable m →
      AdaptiveMode.Reachable (m.record_result card correct)
  | step_reset {m : AdaptiveMode α} :
      AdaptiveMode.Reachable m → AdaptiveMode.Reachable m.reset

/-- A strategy instance as produced by the factory (one of the three
concrete mode classes). -/
inductive QuizMode (α : Type) where
  | sequential (m : SequentialMode α)
  | random (m : RandomMode α)
  | adaptive (m : AdaptiveMode α)
  deriving Repr, DecidableEq

namespace QuizModeFactory

/-- The keys of `QuizModeFactory._modes`, in dict insertion order. -/
def modes_keys : List String :=
  ["sequential", "random", "adaptive"]

/-- `QuizModeFactory.available_modes`: `sorted(cls._modes.keys())`. -/
def available_modes : List String :=
  sort_strings modes_keys

/-- `QuizModeFactory.create(mode_name, cards)`: looks up
`mode_name.lower()` among the mode names and constructs the mode;
raises `ValueError` (embedded as `Except.error` carrying the message)
for an unknown name. The outcome of `random.shuffle` used by
`RandomMode.__init__` is passed explicitly as `shuffled`. -/
def create {α : Type} (shuffled : List α) (mode_name : String)
    (cards : List α) : Except String (QuizMode α) :=
  let lowered := py_lower mode_name
  if lowered = "sequential" then
    Except.ok (QuizMode.sequential (SequentialMode.init cards))
  else if lowered = "random" then
    Except.ok (QuizMode.random (RandomMode.init cards shuffled))
  else if lowered = "adaptive" then
    Except.ok (QuizMode.adaptive (AdaptiveMode.init cards))
  else
    Except.error ("Unknown quiz mode " ++ squote ++ mode_name ++ squote ++
      ". Available: " ++ join_comma available_modes)

end QuizModeFactory

/-! ### Session orchestration (`src/utils/quiz_session.py`)

The session is generic over the strategy state `μ` together with the
operations the orchestrator invokes on it (`ModeOps`); card references
are ids (`Nat`) into the session's card store. Display calls are
recorded as events; each blocking `get_answer` consumes one `Input`
(either a typed string or a `KeyboardInterrupt` arriving during the
wait). -/

/-- One display interaction, in call order (`src/utils/display.py` is an
external collaborator; only the calls the session makes are recorded). -/
inductive DisplayEvent where
  | question (number total : Nat) (front : String)
  | feedback (correct : Bool) (back : String)
  | interrupted
  | stats (s : SessionStats Nat) (detailed : Bool)
  deriving Repr, DecidableEq

/-- One outcome of the blocking `Display.get_answer()` call: a typed
answer string, or a `KeyboardInterrupt` during the wait. -/
inductive Input where
  | answer (s : String)
  | interrupt
  deriving Repr, DecidableEq

/-- The strategy interface as the orchestrator sees it (`QuizMode`
abstract base class), over strategy state `μ` with card ids. -/
structure ModeOps (μ : Type) where
  next_card : μ → Option Nat × μ
  has_more : μ → Bool
  record_result : μ → Nat → Bool → μ

/-- `ModeOps` instance for `SequentialMode` over card ids
(`record_result` is the base-class no-op). -/
def sequentialOps : ModeOps (SequentialMode Nat) :=
  { next_card := SequentialMode.next_card
    has_more := SequentialMode.has_more
    record_result := fun m _ _ => m }

/-- `ModeOps` instance for `AdaptiveMode` over card ids. -/
def adaptiveOps : ModeOps (AdaptiveMode Nat) :=
  { next_card := AdaptiveMode.next_card
    has_more := AdaptiveMode.has_more
    record_result := AdaptiveMode.record_result }

/-- Mutable state of a `QuizSession`: the strategy state, the card store
(`self._cards`, shared by reference with results and strategies, here
indexed by id), accumulated results, the 1-based question counter, and
the log of display calls. -/
structure SessionState (μ : Type) where
  mode : μ
  store : List Flashcard
  results : List (QuizResult Nat)
  question_number : Nat
  events : List DisplayEvent
  deriving Repr, DecidableEq

instance : Inhabited Flashcard :=
  ⟨{ front := "", back := "" }⟩

/-- `QuizSession.__init__(mode, cards, display, ...)`. -/
def QuizSession.init {μ : Type} (mode : μ) (cards : List Flashcard) :
    SessionState μ :=
  { mode := mode, store := cards, results := [], question_number := 0,
    events := [] }

/-- `QuizSession._check_answer`: compare answers case-insensitively with
whitespace normalization (`strip().lower()` on both sides). -/
def QuizSession.check_answer (user_answer correct_answer : String) : Bool :=
  py_lower (py_strip user_answer) == py_lower (py_strip correct_answer)

/-- `QuizSession._build_stats`: totals computed from the accumulated
results. -/
def QuizSession.build_stats {κ : Type} (results : List (QuizResult κ)) :
    SessionStats κ :=
  { total_questions := results.length
    correct_answers := (results.filter (fun r => r.is_correct)).length
    results := results }

/-- Result of one `_ask_question` call: continue the loop, stop (user
typed `exit`), or a `KeyboardInterrupt` escaped from the input wait. -/
inductive StepOutcome (μ : Type) where
  | next (st : SessionState μ)
  | stop (st : SessionState μ)
  | interrupted (st : SessionState μ)
  deriving DecidableEq

/-- `QuizSession._ask_question(card)`: bump the question counter, show
the question, wait for input; on `exit` (after `strip().lower()`) return
without scoring; otherwise judge the answer, update the card's counters,
inform the strategy, show feedback and append a `QuizResult`. -/
def QuizSession.ask_question {μ : Type} (ops : ModeOps μ)
    (st : SessionState μ) (cardId : Nat) (inp : Input) : StepOutcome μ :=
  let card := st.store.getD cardId default
  let st1 : SessionState μ :=
    { st with
      question_number := st.question_number + 1
      events := st.events ++
        [DisplayEvent.question (st.question_number + 1) st.store.length
          card.front] }
  match inp with
  | Input.interrupt => StepOutcome.interrupted st1
  | Input.answer ans =>
    if py_lower (py_strip ans) == "exit" then
      StepOutcome.stop st1
    else
      let correct := QuizSession.check_answer ans card.back
      let card' : Flashcard :=
        { card with
          times_shown := card.times_shown + 1
          times_correct := card.times_correct + (if correct then 1 else 0) }
      let st2 : SessionState μ :=
        { st1 with store := st1.store.set cardId card' }
      let st3 : SessionState μ :=
        { st2 with mode := ops.record_result st2.mode cardId correct }
      let st4 : SessionState μ :=
        { st3 with events := st3.events ++
            [DisplayEvent.feedback correct card.back] }
      let st5 : SessionState μ :=
        { st4 with results := st4.results ++
            [{ card := cardId, user_answer := ans, is_correct := correct }] }
      StepOutcome.next st5

/-- The `while` loop of `QuizSession.run`: while the strategy has more
cards, pull the next card and ask it. Returns the final state and
whether a `KeyboardInterrupt` was caught. Consumes one `Input` per
question; an exhausted input list simply ends the loop (the theorems
below only concern runs that never hit that artificial case). -/
def QuizSession.run_loop {μ : Type} (ops : ModeOps μ) :
    List Input → SessionState μ → SessionState μ × Bool
  | [], st => (st, false)
  | inp :: rest, st =>
    if ops.has_more st.mode then
      match ops.next_card st.mode with
      | (none, m') => ({ st with mode := m' }, false)
      | (some cardId, m') =>
        match QuizSession.ask_question ops { st with mode := m' } cardId inp with
        | StepOutcome.next st' => QuizSession.run_loop ops rest st'
        | StepOutcome.stop st' => (st', false)
        | StepOutcome.interrupted st' => (st', true)
    else (st, false)

/-- `QuizSession.run()`: run the loop; on a caught `KeyboardInterrupt`
call `show_interrupted`; build the stats, render them (`show_stats`)
and return them. -/
def QuizSession.run {μ : Type} (ops : ModeOps μ) (inputs : List Input)
    (st : SessionState μ) (detailed : Bool) :
    SessionStats Nat × SessionState μ :=
  let p := QuizSession.run_loop ops inputs st
  let st1 : SessionState μ :=
    if p.2 then
      { p.1 with events := p.1.events ++ [DisplayEvent.interrupted] }
    else p.1
  let stats := QuizSession.build_stats st1.results
  (stats,
    { st1 with events := st1.events ++ [DisplayEvent.stats stats detailed] })

/-- The orchestrator loop of `QuizSession.run` specialized to
`AdaptiveMode` over card ids, with answer outcomes supplied by an oracle
`ans` (card id and 0-based attempt number decide correctness, as fed back
through `record_result`). `attempts` counts how often each card was
asked so far, `count` the questions asked; returns `some` total question
count if the queue is exhausted within `fuel` questions. -/
def AdaptiveMode.play (ans : Nat → Nat → Bool) :
    Nat → AdaptiveMode Nat → (Nat → Nat) → Nat → Option Nat
  | 0, _, _, _ => none
  | fuel + 1, m, attempts, count =>
    match m.next_card with
    | (none, _) => some count
    | (some id, m') =>
      let correct := ans id (attempts id)
      AdaptiveMode.play ans fuel (m'.record_result id correct)
        (fun j => if j = id then attempts j + 1 else attempts j) (count + 1)

/-- The cards a strategy state has still to show: the queue from the
cursor on. -/
def AdaptiveMode.pending (m : AdaptiveMode Nat) : List Nat :=
  m.queue.drop m.index

/-- Termination measure for `AdaptiveMode.play`: each pending card can
be asked at most once more per unit (it stops being requeued at its
first correct attempt, which is at latest attempt `K id`). -/
def AdaptiveMode.playMeasure (K attempts : Nat → Nat)
    (m : AdaptiveMode Nat) : Nat :=
  (m.pending.map (fun id => K id - attempts id + 1)).sum

/-! ### Theorems -/

/-- Helper: iterating `next_card` on a `SequentialMode` with enough fuel
yields exactly the cards from the cursor on. -/
theorem sequential_next_list_eq_drop {α : Type} :
    ∀ (fuel : Nat) (m : SequentialMode α),
      m.cards.length - m.index ≤ fuel →
      SequentialMode.next_list fuel m = m.cards.drop m.index := by
  intro fuel
  induction fuel with
  | zero =>
    intro m h
    have hle : m.cards.length ≤ m.index := by omega
    simp [SequentialMode.next_list, List.drop_eq_nil_of_le hle]
  | succ fuel ih =>
    intro m h
    by_cases hlt : m.index < m.cards.length
    · have hstep : m.next_card =
          (some (m.cards.get ⟨m.index, hlt⟩), { m with index := m.index + 1 }) := by
        simp [SequentialMode.next_card, hlt]
      rw [SequentialMode.next_list, hstep]
      dsimp only
      rw [ih { m with index := m.index + 1 } (by simp; omega)]
      simp only [List.get_eq_getElem]
      exact (List.drop_eq_getElem_cons hlt).symm
    · have hstep : m.next_card = (none, m) := by
        simp [SequentialMode.next_card, hlt]
      rw [SequentialMode.next_list, hstep]
      have hle : m.cards.length ≤ m.index := Nat.le_of_not_lt hlt
      simp [List.drop_eq_nil_of_le hle]

/-- Helper: iterating `next_card` on a `RandomMode` with enough fuel
yields exactly the cards from the cursor on. -/
theorem random_next_list_eq_drop {α : Type} :
    ∀ (fuel : Nat) (m : RandomMode α),
      m.cards.length - m.index ≤ fuel →
      RandomMode.next_list fuel m = m.cards.drop m.index := by
  intro fuel
  induction fuel with
  | zero =>
    intro m h
    have hle : m.cards.length ≤ m.index := by omega
    simp [RandomMode.next_list, List.drop_eq_nil_of_le hle]
  | succ fuel ih =>
    intro m h
    by_cases hlt : m.index < m.cards.length
    · have hstep : m.next_card =
          (some (m.cards.get ⟨m.index, hlt⟩), { m with index := m.index + 1 }) := by
        simp [RandomMode.next_card, hlt]
      rw [RandomMode.next_list, hstep]
      dsimp only
      rw [ih { m with index := m.index + 1 } (by simp; omega)]
      simp only [List.get_eq_getElem]
      exact (List.drop_eq_getElem_cons hlt).symm
    · have hstep : m.next_card = (none, m) := by
        simp [RandomMode.next_card, hlt]
      rw [RandomMode.next_list, hstep]
      have hle : m.cards.length ≤ m.index := Nat.le_of_not_lt hlt
      simp [List.drop_eq_nil_of_le hle]

/-- Helper: iterating `next_card` on an `AdaptiveMode` with enough fuel
yields exactly the cards from the cursor on. -/
theorem adaptive_next_list_eq_drop {α : Type} :
    ∀ (fuel : Nat) (m : AdaptiveMode α),
      m.queue.length - m.index ≤ fuel →
      AdaptiveMode.next_list fuel m = m.queue.drop m.index := by
  intro fuel
  induction fuel with
  | zero =>
    intro m h
    have hle : m.queue.length ≤ m.index := by omega
    simp [AdaptiveMode.next_list, List.drop_eq_nil_of_le hle]
  | succ fuel ih =>
    intro m h
    by_cases hlt : m.index < m.queue.length
    · have hstep : m.next_card =
          (some (m.queue.get ⟨m.index, hlt⟩), { m with index := m.index + 1 }) := by
        simp [AdaptiveMode.next_card, hlt]
      rw [AdaptiveMode.next_list, hstep]
      dsimp only
      rw [ih { m with index := m.index + 1 } (by simp; omega)]
      simp only [List.get_eq_getElem]
      exact (List.drop_eq_getElem_cons hlt).symm
    · have hstep : m.next_card = (none, m) := by
        simp [AdaptiveMode.next_card, hlt]
      rw [AdaptiveMode.next_list, hstep]
      have hle : m.queue.length ≤ m.index := Nat.le_of_not_lt hlt
      simp [List.drop_eq_nil_of_le hle]

/-- C7: for every deck, a full pass of repeated `next()` calls (any fuel
at least the deck length, i.e. until `has_more` is false) on a freshly
constructed Sequential strategy returns exactly the deck in its original
order, and on a freshly constructed Random strategy returns the shuffled
working list, a permutation of the deck — so each deck card is yielded
exactly once per pass and the multiset of returned cards equals the
multiset of input cards. -/
theorem sequential_random_full_pass {α : Type} (deck shuffled : List α)
    (fuel : Nat) (hperm : shuffled.Perm deck) (hfuel : deck.length ≤ fuel) :
    SequentialMode.next_list fuel (SequentialMode.init deck) = deck
    ∧ RandomMode.next_list fuel (RandomMode.init deck shuffled) = shuffled
    ∧ (RandomMode.next_list fuel (RandomMode.init deck shuffled)).Perm deck
    ∧ SequentialMode.has_more
        { cards := deck, index := deck.length } = false
    ∧ RandomMode.has_more
        { original := deck, cards := shuffled, index := shuffled.length } = false := by
  have hlen : shuffled.length = deck.length := hperm.length_eq
  have h1 : SequentialMode.next_list fuel (SequentialMode.init deck) = deck := by
    rw [sequential_next_list_eq_drop fuel (SequentialMode.init deck)
      (by simp [SequentialMode.init]; omega)]
    simp [SequentialMode.init]
  have h2 : RandomMode.next_list fuel (RandomMode.init deck shuffled) = shuffled := by
    rw [random_next_list_eq_drop fuel (RandomMode.init deck shuffled)
      (by simp [RandomMode.init]; omega)]
    simp [RandomMode.init]
  refine ⟨h1, h2, ?_, ?_, ?_⟩
  · rw [h2]; exact hperm
  · simp [SequentialMode.has_more]
  · simp [RandomMode.has_more]

/-- Helper: every reachable `AdaptiveMode` state keeps its cursor within
the queue. -/
theorem AdaptiveMode.reachable_index_le {α : Type} {m : AdaptiveMode α}
    (h : m.Reachable) : m.index ≤ m.queue.length := by
  induction h with
  | init cards => simp [AdaptiveMode.init]
  | step_next h ih =>
    rename_i m
    by_cases hlt : m.index < m.queue.length
    · simp [AdaptiveMode.next_card, hlt]; omega
    · simp [AdaptiveMode.next_card, hlt]; omega
  | step_record card correct h ih =>
    rename_i m
    by_cases hc : correct
    · simp [AdaptiveMode.record_result, hc]; omega
    · simp [AdaptiveMode.record_result, hc]; omega
  | step_reset h ih =>
    simp [AdaptiveMode.reset]

/-- C1: in every reachable `AdaptiveMode` state, `record_result(card,
correct=false)` appends that card to the end of the working queue, so
the cards still to be produced by later `next_card` calls in the pass
are the previously pending ones followed by that card (it reappears
after all currently queued cards, including earlier re-queued ones);
`record_result(card, correct=true)` leaves the state unchanged. -/
theorem adaptive_record_result_requeue {α : Type} (m : AdaptiveMode α)
    (card : α) (h : m.Reachable) :
    (m.record_result card false).queue = m.queue ++ [card]
    ∧ (m.record_result card false).index = m.index
    ∧ AdaptiveMode.next_list (m.record_result card false).queue.length
        (m.record_result card false)
      = AdaptiveMode.next_list m.queue.length m ++ [card]
    ∧ m.record_result card true = m := by
  have hle : m.index ≤ m.queue.length := AdaptiveMode.reachable_index_le h
  have hq : (m.record_result card false).queue = m.queue ++ [card] := by
    simp [AdaptiveMode.record_result]
  have hi : (m.record_result card false).index = m.index := by
    simp [AdaptiveMode.record_result]
  refine ⟨hq, hi, ?_, by simp [AdaptiveMode.record_result]⟩
  rw [adaptive_next_list_eq_drop _ (m.record_result card false) (by omega)]
  rw [adaptive_next_list_eq_drop _ m (by omega)]
  rw [hq, hi]
  exact List.drop_append_of_le_length hle

/-- Witness for C1 at a concrete reachable state: the initial adaptive
state over a two-card deck after one `next_card` call. -/
theorem adaptive_record_result_requeue_witness :
    ((AdaptiveMode.init [7, 8]).next_card.2.Reachable
    ∧ ((AdaptiveMode.init [7, 8]).next_card.2.record_result 7 false).queue
        = [7, 8, 7]
    ∧ AdaptiveMode.next_list 3
        ((AdaptiveMode.init [(7 : Nat), 8]).next_card.2.record_result 7 false)
        = [8, 7]
    ∧ (AdaptiveMode.init [(7 : Nat), 8]).next_card.2.record_result 7 true
        = (AdaptiveMode.init [7, 8]).next_card.2) := by
  have hreach : (AdaptiveMode.init [(7 : Nat), 8]).next_card.2.Reachable :=
    AdaptiveMode.Reachable.step_next (AdaptiveMode.Reachable.init [7, 8])
  have h := adaptive_record_result_requeue
    (AdaptiveMode.init [(7 : Nat), 8]).next_card.2 7 hreach
  refine ⟨hreach, ?_, ?_, h.2.2.2⟩
  · have := h.1
    simpa using this
  · have := h.2.2.1
    simpa using this

/-- Witness for C7 at a concrete three-card deck and a concrete
shuffle. -/
theorem sequential_random_full_pass_witness :
    ([30, 10, 20] : List Nat).Perm [10, 20, 30]
    ∧ ([10, 20, 30] : List Nat).length ≤ 3
    ∧ SequentialMode.next_list 3 (SequentialMode.init [10, 20, 30]) = [10, 20, 30]
    ∧ RandomMode.next_list 3 (RandomMode.init [10, 20, 30] [30, 10, 20]) = [30, 10, 20]
    ∧ (RandomMode.next_list 3 (RandomMode.init [10, 20, 30] [30, 10, 20])).Perm [10, 20, 30] := by
  have hperm : ([30, 10, 20] : List Nat).Perm [10, 20, 30] := by decide
  have h := sequential_random_full_pass [10, 20, 30] [30, 10, 20] 3 hperm (by decide)
  exact ⟨hperm, by decide, h.1, h.2.1, h.2.2.1⟩

/-- Helper: the sorted list of recognized mode names. -/
theorem QuizModeFactory.available_modes_eq :
    QuizModeFactory.available_modes = ["adaptive", "random", "sequential"] := by
  decide

/-- C8: `create` matches the mode name case-insensitively against
exactly `sequential`, `random`, `adaptive`: `create("RANDOM", cards)`
and `create("random", cards)` produce the same strategy (given the same
ambient shuffle), any name whose lowering is one of the recognized keys
succeeds, any other name fails with a `ValueError` whose message names
the offending value and lists the recognized names sorted
lexicographically, and `available_modes` returns exactly the sorted
names. -/
theorem QuizModeFactory.create_spec (α : Type) :
    (∀ cards shuffled : List α,
      QuizModeFactory.create shuffled "RANDOM" cards
        = QuizModeFactory.create shuffled "random" cards)
    ∧ (∀ (name : String) (cards shuffled : List α),
        py_lower name ∈ QuizModeFactory.modes_keys →
        ∃ m, QuizModeFactory.create shuffled name cards = Except.ok m)
    ∧ (∀ (name : String) (cards shuffled : List α),
        py_lower name ∉ QuizModeFactory.modes_keys →
        QuizModeFactory.create shuffled name cards
          = Except.error ("Unknown quiz mode " ++ squote ++ name ++ squote ++
              ". Available: adaptive, random, sequential"))
    ∧ QuizModeFactory.available_modes = ["adaptive", "random", "sequential"] := by
  have hjoin : join_comma QuizModeFactory.available_modes
      = "adaptive, random, sequential" := by decide
  refine ⟨?_, ?_, ?_, QuizModeFactory.available_modes_eq⟩
  · intro cards shuffled
    have h1 : py_lower "RANDOM" = "random" := by decide
    have h2 : py_lower "random" = "random" := by decide
    simp [QuizModeFactory.create, h1, h2]
  · intro name cards shuffled hmem
    simp only [QuizModeFactory.modes_keys, List.mem_cons,
      List.not_mem_nil, or_false] at hmem
    rcases hmem with h | h | h <;> simp [QuizModeFactory.create, h]
  · intro name cards shuffled hmem
    simp only [QuizModeFactory.modes_keys, List.mem_cons,
      List.not_mem_nil, or_false, not_or] at hmem
    obtain ⟨h1, h2, h3⟩ := hmem
    have hcat : (". Available: " ++ "adaptive, random, sequential" : String)
        = ". Available: adaptive, random, sequential" := by decide
    simp [QuizModeFactory.create, h1, h2, h3, hjoin, String.append_assoc, hcat]

/-- Witness for C8: the unknown name `bogus` fails with the documented
message, while `RANDOM` (upper case) succeeds. -/
theorem QuizModeFactory.create_spec_witness :
    py_lower "bogus" ∉ QuizModeFactory.modes_keys
    ∧ QuizModeFactory.create [(5 : Nat)] "bogus" [5]
        = Except.error ("Unknown quiz mode " ++ squote ++ "bogus" ++ squote ++
            ". Available: adaptive, random, sequential")
    ∧ py_lower "RANDOM" ∈ QuizModeFactory.modes_keys
    ∧ (∃ m, QuizModeFactory.create [(5 : Nat)] "RANDOM" [5] = Except.ok m) := by
  have hnot : py_lower "bogus" ∉ QuizModeFactory.modes_keys := by decide
  have hin : py_lower "RANDOM" ∈ QuizModeFactory.modes_keys := by decide
  exact ⟨hnot,
    (QuizModeFactory.create_spec Nat).2.2.1 "bogus" [5] [5] hnot,
    hin,
    (QuizModeFactory.create_spec Nat).2.1 "RANDOM" [5] [5] hin⟩

/-- C3: an answer is judged correct exactly when the answer and the
card's back agree after stripping leading/trailing whitespace and
lowering case (no partial-credit, fuzzy or synonym matching exists in
`_check_answer`); in particular the answer `"  pARIS  "` against the
back `"Paris"` is judged correct. -/
theorem check_answer_spec :
    (∀ (u : String) (card : Flashcard),
      QuizSession.check_answer u card.back = true
        ↔ py_lower (py_strip u) = py_lower (py_strip card.back))
    ∧ QuizSession.check_answer "  pARIS  " "Paris" = true := by
  constructor
  · intro u card
    simp [QuizSession.check_answer]
  · decide

/-- C4: `_build_stats` sets `total_questions` to the number of results
and `correct_answers` to the number of correct results, keeps the result
sequence, and the derived `accuracy_percent` is
`100 * correct / total` (0 when `total = 0`) while `missed_cards` is the
order-preserving list of the cards of the incorrect results; with
`total_questions = 0` the missed-card list is empty. -/
theorem build_stats_spec (κ : Type) (results : List (QuizResult κ)) :
    (QuizSession.build_stats results).total_questions = results.length
    ∧ (QuizSession.build_stats results).correct_answers
        = (results.filter (fun r => r.is_correct)).length
    ∧ (QuizSession.build_stats results).results = results
    ∧ (QuizSession.build_stats results).accuracy_percent
        = (if results.length = 0 then 0
           else 100 * ((results.filter (fun r => r.is_correct)).length : ℚ)
             / (results.length : ℚ))
    ∧ (QuizSession.build_stats results).missed_cards
        = (results.filter (fun r => !r.is_correct)).map (fun r => r.card)
    ∧ ((QuizSession.build_stats results).total_questions = 0 →
        (QuizSession.build_stats results).missed_cards = []
        ∧ (QuizSession.build_stats results).accuracy_percent = 0) := by
  refine ⟨rfl, rfl, rfl, ?_, rfl, ?_⟩
  · by_cases h : results.length = 0
    · simp [QuizSession.build_stats, SessionStats.accuracy_percent, h]
    · simp only [QuizSession.build_stats, SessionStats.accuracy_percent, h,
        if_false]
      ring
  · intro h
    have hnil : results = [] := by
      have : results.length = 0 := h
      exact List.length_eq_zero.mp this
    subst hnil
    constructor
    · rfl
    · simp [QuizSession.build_stats, SessionStats.accuracy_percent]

/-- Witness for C4 at the empty result sequence (`total_questions = 0`):
accuracy is 0 and no cards are missed. -/
theorem build_stats_spec_witness :
    (QuizSession.build_stats ([] : List (QuizResult Nat))).total_questions = 0
    ∧ (QuizSession.build_stats ([] : List (QuizResult Nat))).missed_cards = []
    ∧ (QuizSession.build_stats ([] : List (QuizResult Nat))).accuracy_percent = 0 := by
  have h := (build_stats_spec Nat []).2.2.2.2.2 (by rfl)
  exact ⟨rfl, h.1, h.2⟩

/-- Helper: `_ask_question` on an answer normalizing to `exit` stops the
session, having only bumped the question counter and shown the
question. -/
theorem QuizSession.ask_question_exit {μ : Type} (ops : ModeOps μ)
    (st : SessionState μ) (cardId : Nat) (ans : String)
    (h : py_lower (py_strip ans) = "exit") :
    QuizSession.ask_question ops st cardId (Input.answer ans)
      = StepOutcome.stop
          { st with
            question_number := st.question_number + 1
            events := st.events ++
              [DisplayEvent.question (st.question_number + 1)
                st.store.length (st.store.getD cardId default).front] } := by
  simp [QuizSession.ask_question, h]

/-- Helper: `_ask_question` on a `KeyboardInterrupt` during the input
wait escapes after only bumping the question counter and showing the
question. -/
theorem QuizSession.ask_question_interrupt {μ : Type} (ops : ModeOps μ)
    (st : SessionState μ) (cardId : Nat) :
    QuizSession.ask_question ops st cardId Input.interrupt
      = StepOutcome.interrupted
          { st with
            question_number := st.question_number + 1
            events := st.events ++
              [DisplayEvent.question (st.question_number + 1)
                st.store.length (st.store.getD cardId default).front] } := by
  simp [QuizSession.ask_question]

/-- Helper: `_ask_question` on an ordinary answer scores it: judges it,
updates the card's counters, informs the strategy, shows feedback and
appends the result. -/
theorem QuizSession.ask_question_next {μ : Type} (ops : ModeOps μ)
    (st : SessionState μ) (cardId : Nat) (ans : String)
    (h : ¬ py_lower (py_strip ans) = "exit") :
    QuizSession.ask_question ops st cardId (Input.answer ans)
      = StepOutcome.next
          { mode := ops.record_result st.mode cardId
              (QuizSession.check_answer ans (st.store.getD cardId default).back)
            store := st.store.set cardId
              { st.store.getD cardId default with
                times_shown := (st.store.getD cardId default).times_shown + 1
                times_correct := (st.store.getD cardId default).times_correct
                  + (if QuizSession.check_answer ans
                        (st.store.getD cardId default).back then 1 else 0) }
            results := st.results ++
              [{ card := cardId, user_answer := ans,
                 is_correct := QuizSession.check_answer ans
                   (st.store.getD cardId default).back }]
            question_number := st.question_number + 1
            events := (st.events ++
              [DisplayEvent.question (st.question_number + 1)
                st.store.length (st.store.getD cardId default).front]) ++
              [DisplayEvent.feedback
                (QuizSession.check_answer ans (st.store.getD cardId default).back)
                (st.store.getD cardId default).back] } := by
  simp [QuizSession.ask_question, h]

/-- Helper: a `next` outcome of `_ask_question` can only come from an
ordinary answer (not an interrupt, not `exit`). -/
theorem QuizSession.ask_question_next_inv {μ : Type} (ops : ModeOps μ)
    (st : SessionState μ) (cardId : Nat) (inp : Input) (st' : SessionState μ)
    (h : QuizSession.ask_question ops st cardId inp = StepOutcome.next st') :
    ∃ ans, inp = Input.answer ans ∧ ¬ py_lower (py_strip ans) = "exit" := by
  cases inp with
  | interrupt =>
    rw [QuizSession.ask_question_interrupt] at h
    cases h
  | answer ans =>
    by_cases he : py_lower (py_strip ans) = "exit"
    · rw [QuizSession.ask_question_exit ops st cardId ans he] at h
      cases h
    · exact ⟨ans, rfl, he⟩

/-- C2: when the raw answer, stripped and lowered, is the literal token
`exit`, `_ask_question` stops the loop without scoring: no result is
appended, the card store (hence every `times_shown`/`times_correct`
counter) is untouched and the strategy state is untouched
(`record_result` is never invoked); consequently the session loop ends
at that input with its accumulated results and store unchanged and no
interrupt flagged. -/
theorem exit_ends_session_without_scoring {μ : Type} (ops : ModeOps μ)
    (st : SessionState μ) (cardId : Nat) (ans : String)
    (h : py_lower (py_strip ans) = "exit") :
    (∃ st', QuizSession.ask_question ops st cardId (Input.answer ans)
        = StepOutcome.stop st'
      ∧ st'.results = st.results ∧ st'.store = st.store ∧ st'.mode = st.mode)
    ∧ ∀ rest : List Input,
        (QuizSession.run_loop ops (Input.answer ans :: rest) st).2 = false
        ∧ (QuizSession.run_loop ops (Input.answer ans :: rest) st).1.results
            = st.results
        ∧ (QuizSession.run_loop ops (Input.answer ans :: rest) st).1.store
            = st.store := by
  constructor
  · exact ⟨_, QuizSession.ask_question_exit ops st cardId ans h, rfl, rfl, rfl⟩
  · intro rest
    by_cases hm : ops.has_more st.mode
    · rcases hnc : ops.next_card st.mode with ⟨o, m'⟩
      cases o with
      | none => simp [QuizSession.run_loop, hm, hnc]
      | some cid =>
        have hask := QuizSession.ask_question_exit ops
          { st with mode := m' } cid ans h
        simp [QuizSession.run_loop, hm, hnc, hask]
    · simp [QuizSession.run_loop, hm]

/-- Witness for C2: answering `" EXIT "` on a fresh one-card session
ends the loop with no result recorded and the store untouched. -/
theorem exit_ends_session_without_scoring_witness :
    py_lower (py_strip " EXIT ") = "exit"
    ∧ (QuizSession.run_loop sequentialOps [Input.answer " EXIT "]
        (QuizSession.init (SequentialMode.init [0])
          [{ front := "Q", back := "A" }])).2 = false
    ∧ (QuizSession.run_loop sequentialOps [Input.answer " EXIT "]
        (QuizSession.init (SequentialMode.init [0])
          [{ front := "Q", back := "A" }])).1.results = []
    ∧ (QuizSession.run_loop sequentialOps [Input.answer " EXIT "]
        (QuizSession.init (SequentialMode.init [0])
          [{ front := "Q", back := "A" }])).1.store
        = [{ front := "Q", back := "A" }] := by
  have h : py_lower (py_strip " EXIT ") = "exit" := by decide
  have happ := (exit_ends_session_without_scoring sequentialOps
    (QuizSession.init (SequentialMode.init [0])
      [{ front := "Q", back := "A" }]) 0 " EXIT " h).2 []
  exact ⟨h, happ.1, happ.2.1, happ.2.2⟩

/-- C5: a `KeyboardInterrupt` arriving while the orchestrator is blocked
waiting for input is caught by `run`: the loop ends with the interrupt
flag (no exception propagates — `run` returns normally), no accumulated
result or card update is lost, the Display collaborator is notified
(`show_interrupted`), and the returned statistics are built from exactly
the results accumulated so far and are rendered (`show_stats`). -/
theorem interrupt_reports_partial_stats {μ : Type} (ops : ModeOps μ)
    (st : SessionState μ) (rest : List Input) (detailed : Bool)
    (h1 : ops.has_more st.mode = true)
    (h2 : (ops.next_card st.mode).1.isSome = true) :
    (QuizSession.run_loop ops (Input.interrupt :: rest) st).2 = true
    ∧ (QuizSession.run_loop ops (Input.interrupt :: rest) st).1.results
        = st.results
    ∧ (QuizSession.run_loop ops (Input.interrupt :: rest) st).1.store
        = st.store
    ∧ (QuizSession.run ops (Input.interrupt :: rest) st detailed).1
        = QuizSession.build_stats st.results
    ∧ DisplayEvent.interrupted
        ∈ (QuizSession.run ops (Input.interrupt :: rest) st detailed).2.events
    ∧ DisplayEvent.stats (QuizSession.build_stats st.results) detailed
        ∈ (QuizSession.run ops (Input.interrupt :: rest) st detailed).2.events := by
  rcases hnc : ops.next_card st.mode with ⟨o, m'⟩
  cases o with
  | none =>
    rw [hnc] at h2
    simp at h2
  | some cid =>
    have hask := QuizSession.ask_question_interrupt ops { st with mode := m' } cid
    have hloop : QuizSession.run_loop ops (Input.interrupt :: rest) st
        = ({ st with
              mode := m',
              question_number := st.question_number + 1,
              events := st.events ++
                [DisplayEvent.question (st.question_number + 1)
                  st.store.length (st.store.getD cid default).front] }, true) := by
      simp [QuizSession.run_loop, h1, hnc, hask]
    refine ⟨?_, ?_, ?_, ?_, ?_, ?_⟩ <;>
      simp [hloop, QuizSession.run]

/-- Witness for C5: interrupting right after one correct answer (state
after question 1 of a two-card sequential deck) yields statistics with
`total_questions = 1`, `correct_answers = 1`, and the interrupted
notification, not a crash. -/
theorem interrupt_reports_partial_stats_witness :
    sequentialOps.has_more { cards := [0, 1], index := 1 } = true
    ∧ (sequentialOps.next_card { cards := [0, 1], index := 1 }).1.isSome = true
    ∧ (QuizSession.run sequentialOps [Input.interrupt]
        { mode := { cards := [0, 1], index := 1 }
          store := [{ front := "Capital of France?", back := "Paris",
                      times_shown := 1, times_correct := 1 },
                    { front := "2 + 2?", back := "4" }]
          results := [{ card := 0, user_answer := "Paris", is_correct := true }]
          question_number := 1
          events := [] } false).1.total_questions = 1
    ∧ (QuizSession.run sequentialOps [Input.interrupt]
        { mode := { cards := [0, 1], index := 1 }
          store := [{ front := "Capital of France?", back := "Paris",
                      times_shown := 1, times_correct := 1 },
                    { front := "2 + 2?", back := "4" }]
          results := [{ card := 0, user_answer := "Paris", is_correct := true }]
          question_number := 1
          events := [] } false).1.correct_answers = 1
    ∧ DisplayEvent.interrupted
        ∈ (QuizSession.run sequentialOps [Input.interrupt]
            { mode := { cards := [0, 1], index := 1 }
              store := [{ front := "Capital of France?", back := "Paris",
                          times_shown := 1, times_correct := 1 },
                        { front := "2 + 2?", back := "4" }]
              results := [{ card := 0, user_answer := "Paris", is_correct := true }]
              question_number := 1
              events := [] } false).2.events := by
  have h1 : sequentialOps.has_more { cards := [0, 1], index := 1 } = true := by
    decide
  have h2 : (sequentialOps.next_card { cards := [0, 1], index := 1 }).1.isSome
      = true := by decide
  have h := interrupt_reports_partial_stats sequentialOps
    { mode := { cards := [0, 1], index := 1 }
      store := [{ front := "Capital of France?", back := "Paris",
                  times_shown := 1, times_correct := 1 },
                { front := "2 + 2?", back := "4" }]
      results := [{ card := 0, user_answer := "Paris", is_correct := true }]
      question_number := 1
      events := [] } [] false h1 h2
  refine ⟨h1, h2, ?_, ?_, h.2.2.2.2.1⟩
  · rw [h.2.2.2.1]
    rfl
  · rw [h.2.2.2.1]
    rfl

/-- Helper: full inversion of a `next` outcome of `_ask_question`: it
came from an ordinary answer, the strategy was informed, the card's
counters were updated in the store, and the judged result was
appended. -/
theorem QuizSession.ask_question_next_spec {μ : Type} (ops : ModeOps μ)
    (st : SessionState μ) (cardId : Nat) (inp : Input) (st' : SessionState μ)
    (h : QuizSession.ask_question ops st cardId inp = StepOutcome.next st') :
    ∃ ans, inp = Input.answer ans
      ∧ ¬ py_lower (py_strip ans) = "exit"
      ∧ st'.mode = ops.record_result st.mode cardId
          (QuizSession.check_answer ans (st.store.getD cardId default).back)
      ∧ st'.store = st.store.set cardId
          { st.store.getD cardId default with
            times_shown := (st.store.getD cardId default).times_shown + 1,
            times_correct := (st.store.getD cardId default).times_correct
              + (if QuizSession.check_answer ans
                    (st.store.getD cardId default).back then 1 else 0) }
      ∧ st'.results = st.results ++
          [{ card := cardId, user_answer := ans,
             is_correct := QuizSession.check_answer ans
               (st.store.getD cardId default).back }] := by
  obtain ⟨ans, hinp, hne⟩ :=
    QuizSession.ask_question_next_inv ops st cardId inp st' h
  subst hinp
  rw [QuizSession.ask_question_next ops st cardId ans hne] at h
  injection h with h'
  subst h'
  exact ⟨ans, rfl, hne, rfl, rfl, rfl⟩

/-- Helper: a `stop` outcome of `_ask_question` leaves results, store
and strategy state untouched. -/
theorem QuizSession.ask_question_stop_frames {μ : Type} (ops : ModeOps μ)
    (st : SessionState μ) (cardId : Nat) (inp : Input) (st' : SessionState μ)
    (h : QuizSession.ask_question ops st cardId inp = StepOutcome.stop st') :
    st'.results = st.results ∧ st'.store = st.store ∧ st'.mode = st.mode := by
  cases inp with
  | interrupt =>
    rw [QuizSession.ask_question_interrupt] at h
    cases h
  | answer ans =>
    by_cases he : py_lower (py_strip ans) = "exit"
    · rw [QuizSession.ask_question_exit ops st cardId ans he] at h
      injection h with h'
      subst h'
      exact ⟨rfl, rfl, rfl⟩
    · rw [QuizSession.ask_question_next ops st cardId ans he] at h
      cases h

/-- Helper: an `interrupted` outcome of `_ask_question` leaves results,
store and strategy state untouched. -/
theorem QuizSession.ask_question_interrupted_frames {μ : Type} (ops : ModeOps μ)
    (st : SessionState μ) (cardId : Nat) (inp : Input) (st' : SessionState μ)
    (h : QuizSession.ask_question ops st cardId inp
        = StepOutcome.interrupted st') :
    st'.results = st.results ∧ st'.store = st.store ∧ st'.mode = st.mode := by
  cases inp with
  | interrupt =>
    rw [QuizSession.ask_question_interrupt] at h
    injection h with h'
    subst h'
    exact ⟨rfl, rfl, rfl⟩
  | answer ans =>
    by_cases he : py_lower (py_strip ans) = "exit"
    · rw [QuizSession.ask_question_exit ops st cardId ans he] at h
      cases h
    · rw [QuizSession.ask_question_next ops st cardId ans he] at h
      cases h

/-- Helper: setting a card whose back is unchanged does not change any
card's back as seen through `getD`. -/
theorem store_set_back_getD (l : List Flashcard) (i : Nat) (v : Flashcard)
    (j : Nat) (hv : v.back = (l.getD i default).back) :
    ((l.set i v).getD j default).back = (l.getD j default).back := by
  by_cases hj : j = i
  · subst hj
    by_cases hlt : j < l.length
    · rw [List.getD_eq_getElem _ _ (by simpa using hlt)]
      rw [List.getElem_set_self]
      exact hv
    · rw [List.set_eq_of_length_le (Nat.le_of_not_lt hlt)]
  · simp [List.getD, List.getElem?_set_ne (Ne.symm hj)]

/-- Helper: a scoring step never changes any card's back text. -/
theorem QuizSession.ask_question_next_back {μ : Type} (ops : ModeOps μ)
    (st : SessionState μ) (cardId : Nat) (inp : Input) (st' : SessionState μ)
    (h : QuizSession.ask_question ops st cardId inp = StepOutcome.next st') :
    ∀ j, (st'.store.getD j default).back = (st.store.getD j default).back := by
  obtain ⟨ans, hinp, hne, hmode, hstore, hres⟩ :=
    QuizSession.ask_question_next_spec ops st cardId inp st' h
  intro j
  rw [hstore]
  apply store_set_back_getD
  rfl

/-- C10: a card whose back normalizes (strip + lower) to the literal
token `exit` can never be scored correct: the early-exit check runs
before correctness judging, so any answer that would match ends the
session instead, and every result a session turn appends for such a
card has `is_correct = false` — both for a single `_ask_question` step
and across a whole session loop. -/
theorem exit_back_never_scored_correct {μ : Type} (ops : ModeOps μ) :
    (∀ (st : SessionState μ) (cardId : Nat) (inp : Input)
      (st' : SessionState μ),
      py_lower (py_strip (st.store.getD cardId default).back) = "exit" →
      QuizSession.ask_question ops st cardId inp = StepOutcome.next st' →
      ∃ ans, st'.results = st.results ++
        [{ card := cardId, user_answer := ans, is_correct := false }])
    ∧ (∀ (inputs : List Input) (st : SessionState μ) (cid : Nat),
      py_lower (py_strip (st.store.getD cid default).back) = "exit" →
      (∀ r ∈ st.results, r.card = cid → r.is_correct = false) →
      ∀ r ∈ (QuizSession.run_loop ops inputs st).1.results,
        r.card = cid → r.is_correct = false) := by
  have hstep : ∀ (st : SessionState μ) (cardId : Nat) (inp : Input)
      (st' : SessionState μ),
      py_lower (py_strip (st.store.getD cardId default).back) = "exit" →
      QuizSession.ask_question ops st cardId inp = StepOutcome.next st' →
      ∃ ans, st'.results = st.results ++
        [{ card := cardId, user_answer := ans, is_correct := false }] := by
    intro st cardId inp st' hback h
    obtain ⟨ans, hinp, hne, hmode, hstore, hres⟩ :=
      QuizSession.ask_question_next_spec ops st cardId inp st' h
    refine ⟨ans, ?_⟩
    rw [hres]
    have hc : QuizSession.check_answer ans (st.store.getD cardId default).back
        = false := by
      by_cases hcc : QuizSession.check_answer ans
          (st.store.getD cardId default).back = true
      · exfalso
        have : py_lower (py_strip ans)
            = py_lower (py_strip (st.store.getD cardId default).back) := by
          simpa [QuizSession.check_answer] using hcc
        exact hne (this.trans hback)
      · simpa using hcc
    rw [hc]
  refine ⟨hstep, ?_⟩
  intro inputs
  induction inputs with
  | nil =>
    intro st cid hback hinv r hr hcard
    simp only [QuizSession.run_loop] at hr
    exact hinv r hr hcard
  | cons inp rest ih =>
    intro st cid hback hinv
    by_cases hm : ops.has_more st.mode
    · rcases hnc : ops.next_card st.mode with ⟨o, m'⟩
      cases o with
      | none =>
        intro r hr hcard
        simp only [QuizSession.run_loop, hm, hnc, if_true] at hr
        exact hinv r hr hcard
      | some cid' =>
        rcases hask : QuizSession.ask_question ops { st with mode := m' } cid' inp
          with st'' | st'' | st''
        · intro r hr hcard
          have hloop : QuizSession.run_loop ops (inp :: rest) st
              = QuizSession.run_loop ops rest st'' := by
            simp [QuizSession.run_loop, hm, hnc, hask]
          rw [hloop] at hr
          obtain ⟨ans, hinp, hne, hmode, hstore, hres⟩ :=
            QuizSession.ask_question_next_spec ops { st with mode := m' }
              cid' inp st'' hask
          have hback'' : py_lower (py_strip
              ((st''.store.getD cid default).back)) = "exit" := by
            rw [QuizSession.ask_question_next_back ops { st with mode := m' }
              cid' inp st'' hask cid]
            exact hback
          have hinv'' : ∀ r' ∈ st''.results, r'.card = cid →
              r'.is_correct = false := by
            intro r' hr' hcard'
            rw [hres] at hr'
            rcases List.mem_append.mp hr' with hold | hnew
            · exact hinv r' hold hcard'
            · have hr'eq : r' =
                  { card := cid', user_answer := ans,
                    is_correct := QuizSession.check_answer ans
                      ((st.store.getD cid' default).back) } := by
                simpa using hnew
              subst hr'eq
              have hcid : cid' = cid := hcard'
              subst hcid
              by_cases hcc : QuizSession.check_answer ans
                  ((st.store.getD cid' default).back) = true
              · exfalso
                have : py_lower (py_strip ans)
                    = py_lower (py_strip ((st.store.getD cid' default).back)) := by
                  simpa [QuizSession.check_answer] using hcc
                exact hne (this.trans hback)
              · simpa using hcc
          exact ih st'' cid hback'' hinv'' r hr hcard
        · intro r hr hcard
          have hloop : QuizSession.run_loop ops (inp :: rest) st = (st'', false) := by
            simp [QuizSession.run_loop, hm, hnc, hask]
          rw [hloop] at hr
          have hfr := QuizSession.ask_question_stop_frames ops
            { st with mode := m' } cid' inp st'' hask
          rw [hfr.1] at hr
          exact hinv r hr hcard
        · intro r hr hcard
          have hloop : QuizSession.run_loop ops (inp :: rest) st = (st'', true) := by
            simp [QuizSession.run_loop, hm, hnc, hask]
          rw [hloop] at hr
          have hfr := QuizSession.ask_question_interrupted_frames ops
            { st with mode := m' } cid' inp st'' hask
          rw [hfr.1] at hr
          exact hinv r hr hcard
    · intro r hr hcard
      simp only [QuizSession.run_loop, hm, if_false] at hr
      exact hinv r hr hcard

/-- Witness for C10: a one-card session whose card's back is `exit`,
answered with a non-matching answer, records only incorrect results for
that card. -/
theorem exit_back_never_scored_correct_witness :
    py_lower (py_strip (((QuizSession.init (SequentialMode.init [0])
        [{ front := "Q", back := "exit" }]).store.getD 0 default).back)) = "exit"
    ∧ (∀ r ∈ (QuizSession.run_loop sequentialOps [Input.answer "no"]
        (QuizSession.init (SequentialMode.init [0])
          [{ front := "Q", back := "exit" }])).1.results,
        r.card = 0 → r.is_correct = false) := by
  have hback : py_lower (py_strip (((QuizSession.init (SequentialMode.init [0])
      [{ front := "Q", back := "exit" }]).store.getD 0 default).back))
      = "exit" := by decide
  refine ⟨hback, ?_⟩
  exact (exit_back_never_scored_correct sequentialOps).2
    [Input.answer "no"]
    (QuizSession.init (SequentialMode.init [0])
      [{ front := "Q", back := "exit" }]) 0 hback
    (by intro r hr; cases hr)

/-- C9: counter bookkeeping. A freshly loaded card has both counters 0;
a scoring step increments the asked card's `times_shown` by exactly 1
and its `times_correct` by 1 exactly when the answer was judged
correct, leaving every other card untouched; an exit or interrupt step
leaves the whole store untouched; the invariant
`times_correct ≤ times_shown` is preserved across any session loop;
under it `times_incorrect` is non-negative; and no strategy operation
(`next_card`, `reset`, `record_result`) alters a card value — they only
move references between queue positions. -/
theorem card_counters_invariant {μ : Type} (ops : ModeOps μ) :
    (∀ f b : String, ({ front := f, back := b } : Flashcard).times_shown = 0
      ∧ ({ front := f, back := b } : Flashcard).times_correct = 0)
    ∧ (∀ (st : SessionState μ) (cardId : Nat) (ans : String)
        (st' : SessionState μ),
        cardId < st.store.length →
        QuizSession.ask_question ops st cardId (Input.answer ans)
          = StepOutcome.next st' →
        (st'.store.getD cardId default).times_shown
            = (st.store.getD cardId default).times_shown + 1
        ∧ (st'.store.getD cardId default).times_correct
            = (st.store.getD cardId default).times_correct
              + (if QuizSession.check_answer ans
                    (st.store.getD cardId default).back then 1 else 0)
        ∧ ∀ j, j ≠ cardId → st'.store.getD j default = st.store.getD j default)
    ∧ (∀ (st : SessionState μ) (cardId : Nat) (inp : Input)
        (st' : SessionState μ),
        (QuizSession.ask_question ops st cardId inp = StepOutcome.stop st'
          ∨ QuizSession.ask_question ops st cardId inp
              = StepOutcome.interrupted st') →
        st'.store = st.store)
    ∧ (∀ (inputs : List Input) (st : SessionState μ),
        (∀ c ∈ st.store, c.times_correct ≤ c.times_shown) →
        ∀ c ∈ (QuizSession.run_loop ops inputs st).1.store,
          c.times_correct ≤ c.times_shown)
    ∧ (∀ c : Flashcard, c.times_correct ≤ c.times_shown →
        0 ≤ c.times_incorrect)
    ∧ (∀ (m : AdaptiveMode Flashcard) (card : Flashcard) (correct : Bool),
        ((m.record_result card correct).queue = m.queue
          ∨ (m.record_result card correct).queue = m.queue ++ [card])
        ∧ m.next_card.2.queue = m.queue
        ∧ m.reset.queue = m.original
        ∧ (∀ c, m.next_card.1 = some c → c ∈ m.queue))
    ∧ (∀ m : SequentialMode Flashcard,
        m.next_card.2.cards = m.cards
        ∧ m.reset.cards = m.cards
        ∧ (∀ c, m.next_card.1 = some c → c ∈ m.cards))
    ∧ (∀ m : RandomMode Flashcard,
        m.next_card.2.cards = m.cards
        ∧ (∀ c, m.next_card.1 = some c → c ∈ m.cards)) := by
  have hstep : ∀ (st : SessionState μ) (cardId : Nat) (ans : String)
      (st' : SessionState μ),
      cardId < st.store.length →
      QuizSession.ask_question ops st cardId (Input.answer ans)
        = StepOutcome.next st' →
      (st'.store.getD cardId default).times_shown
          = (st.store.getD cardId default).times_shown + 1
      ∧ (st'.store.getD cardId default).times_correct
          = (st.store.getD cardId default).times_correct
            + (if QuizSession.check_answer ans
                  (st.store.getD cardId default).back then 1 else 0)
      ∧ ∀ j, j ≠ cardId → st'.store.getD j default = st.store.getD j default := by
    intro st cardId ans st' hlt h
    obtain ⟨ans2, hinp, hne, hmode, hstore, hres⟩ :=
      QuizSession.ask_question_next_spec ops st cardId (Input.answer ans) st' h
    injection hinp with he
    subst he
    have hget : st'.store.getD cardId default
        = { st.store.getD cardId default with
            times_shown := (st.store.getD cardId default).times_shown + 1,
            times_correct := (st.store.getD cardId default).times_correct
              + (if QuizSession.check_answer ans
                    (st.store.getD cardId default).back then 1 else 0) } := by
      rw [hstore]
      rw [List.getD_eq_getElem _ _ (by simpa using hlt)]
      rw [List.getElem_set_self]
    refine ⟨by rw [hget], by rw [hget], ?_⟩
    intro j hj
    rw [hstore]
    simp [List.getD, List.getElem?_set_ne (Ne.symm hj)]
  have hframes : ∀ (st : SessionState μ) (cardId : Nat) (inp : Input)
      (st' : SessionState μ),
      (QuizSession.ask_question ops st cardId inp = StepOutcome.stop st'
        ∨ QuizSession.ask_question ops st cardId inp
            = StepOutcome.interrupted st') →
      st'.store = st.store := by
    intro st cardId inp st' h
    rcases h with h | h
    · exact (QuizSession.ask_question_stop_frames ops st cardId inp st' h).2.1
    · exact (QuizSession.ask_question_interrupted_frames ops st cardId inp st' h).2.1
  refine ⟨fun f b => ⟨rfl, rfl⟩, hstep, hframes, ?_, ?_, ?_, ?_, ?_⟩
  · intro inputs
    induction inputs with
    | nil =>
      intro st hinv c hc
      simp only [QuizSession.run_loop] at hc
      exact hinv c hc
    | cons inp rest ih =>
      intro st hinv
      by_cases hm : ops.has_more st.mode
      · rcases hnc : ops.next_card st.mode with ⟨o, m'⟩
        cases o with
        | none =>
          intro c hc
          simp only [QuizSession.run_loop, hm, hnc, if_true] at hc
          exact hinv c hc
        | some cid' =>
          rcases hask : QuizSession.ask_question ops { st with mode := m' }
            cid' inp with st'' | st'' | st''
          · intro c hc
            have hloop : QuizSession.run_loop ops (inp :: rest) st
                = QuizSession.run_loop ops rest st'' := by
              simp [QuizSession.run_loop, hm, hnc, hask]
            rw [hloop] at hc
            obtain ⟨ans, hinp, hne, hmode, hstore, hres⟩ :=
              QuizSession.ask_question_next_spec ops { st with mode := m' }
                cid' inp st'' hask
            have hinv'' : ∀ c' ∈ st''.store,
                c'.times_correct ≤ c'.times_shown := by
              intro c' hc'
              rw [hstore] at hc'
              rcases List.mem_or_eq_of_mem_set hc' with hold | hnew
              · exact hinv c' hold
              · have hbase : (st.store.getD cid' default).times_correct
                    ≤ (st.store.getD cid' default).times_shown := by
                  by_cases hlt : cid' < st.store.length
                  · have hmem : st.store.getD cid' default ∈ st.store := by
                      rw [List.getD_eq_getElem _ _ hlt]
                      exact List.getElem_mem hlt
                    exact hinv _ hmem
                  · rw [List.getD_eq_default _ _ (Nat.le_of_not_lt hlt)]
                    exact Nat.le_refl 0
                subst hnew
                set c0 := st.store.getD cid' default with hc0
                by_cases hcc : QuizSession.check_answer ans c0.back = true <;>
                  simp [hcc] <;> omega
            exact ih st'' hinv'' c hc
          · intro c hc
            have hloop : QuizSession.run_loop ops (inp :: rest) st
                = (st'', false) := by
              simp [QuizSession.run_loop, hm, hnc, hask]
            rw [hloop] at hc
            rw [(QuizSession.ask_question_stop_frames ops
              { st with mode := m' } cid' inp st'' hask).2.1] at hc
            exact hinv c hc
          · intro c hc
            have hloop : QuizSession.run_loop ops (inp :: rest) st
                = (st'', true) := by
              simp [QuizSession.run_loop, hm, hnc, hask]
            rw [hloop] at hc
            rw [(QuizSession.ask_question_interrupted_frames ops
              { st with mode := m' } cid' inp st'' hask).2.1] at hc
            exact hinv c hc
      · intro c hc
        simp only [QuizSession.run_loop, hm, if_false] at hc
        exact hinv c hc
  · intro c h
    simp only [Flashcard.times_incorrect]
    omega
  · intro m card correct
    refine ⟨?_, ?_, rfl, ?_⟩
    · by_cases hc : correct
      · left
        simp [AdaptiveMode.record_result, hc]
      · right
        simp [AdaptiveMode.record_result, hc]
    · by_cases hlt : m.index < m.queue.length <;>
        simp [AdaptiveMode.next_card, hlt]
    · intro c hc
      by_cases hlt : m.index < m.queue.length
      · simp only [AdaptiveMode.next_card, hlt, dif_pos] at hc
        injection hc with h'
        rw [← h']
        exact m.queue.get_mem _ _
      · simp [AdaptiveMode.next_card, hlt] at hc
  · intro m
    refine ⟨?_, rfl, ?_⟩
    · by_cases hlt : m.index < m.cards.length <;>
        simp [SequentialMode.next_card, hlt]
    · intro c hc
      by_cases hlt : m.index < m.cards.length
      · simp only [SequentialMode.next_card, hlt, dif_pos] at hc
        injection hc with h'
        rw [← h']
        exact m.cards.get_mem _ _
      · simp [SequentialMode.next_card, hlt] at hc
  · intro m
    refine ⟨?_, ?_⟩
    · by_cases hlt : m.index < m.cards.length <;>
        simp [RandomMode.next_card, hlt]
    · intro c hc
      by_cases hlt : m.index < m.cards.length
      · simp only [RandomMode.next_card, hlt, dif_pos] at hc
        injection hc with h'
        rw [← h']
        exact m.cards.get_mem _ _
      · simp [RandomMode.next_card, hlt] at hc

/-- Witness for C9: running a one-card session on a fresh store keeps
`times_correct ≤ times_shown` everywhere, a concrete scoring step
increments `times_shown` to 1, and `times_incorrect` is non-negative at
a concrete card satisfying the invariant. -/
theorem card_counters_invariant_witness :
    ((∀ c ∈ (QuizSession.init (SequentialMode.init [0])
        [{ front := "Q", back := "A" }]).store,
        c.times_correct ≤ c.times_shown)
    ∧ (∀ c ∈ (QuizSession.run_loop sequentialOps [Input.answer "x"]
        (QuizSession.init (SequentialMode.init [0])
          [{ front := "Q", back := "A" }])).1.store,
        c.times_correct ≤ c.times_shown))
    ∧ (({ front := "Q", back := "A", times_shown := 3, times_correct := 2 }
          : Flashcard).times_correct
        ≤ ({ front := "Q", back := "A", times_shown := 3, times_correct := 2 }
          : Flashcard).times_shown
      ∧ 0 ≤ ({ front := "Q", back := "A", times_shown := 3, times_correct := 2 }
          : Flashcard).times_incorrect) := by
  have hinv : ∀ c ∈ (QuizSession.init (SequentialMode.init [0])
      [{ front := "Q", back := "A" }]).store,
      c.times_correct ≤ c.times_shown := by decide
  have hc : ({ front := "Q", back := "A", times_shown := 3, times_correct := 2 }
      : Flashcard).times_correct
      ≤ ({ front := "Q", back := "A", times_shown := 3, times_correct := 2 }
      : Flashcard).times_shown := by decide
  exact ⟨⟨hinv,
    (card_counters_invariant sequentialOps).2.2.2.1 [Input.answer "x"]
      (QuizSession.init (SequentialMode.init [0])
        [{ front := "Q", back := "A" }]) hinv⟩,
    hc, (card_counters_invariant sequentialOps).2.2.2.2.1 _ hc⟩

/-- Helper: the adaptive question loop terminates within `fuel`
questions whenever every pending card is still within its
first-correct-attempt budget and the remaining measure fits in the
fuel; the final question count covers all pending cards at least
once. -/
theorem AdaptiveMode.play_spec (ans : Nat → Nat → Bool) (K : Nat → Nat) :
    ∀ (fuel : Nat) (m : AdaptiveMode Nat) (attempts : Nat → Nat) (count : Nat),
      m.pending.Nodup →
      (∀ id ∈ m.pending, attempts id ≤ K id ∧ ans id (K id) = true) →
      m.playMeasure K attempts < fuel →
      ∃ q, AdaptiveMode.play ans fuel m attempts count = some q
        ∧ count + m.pending.length ≤ q := by
  intro fuel
  induction fuel with
  | zero =>
    intro m attempts count hnd hinv hmeas
    exact absurd hmeas (Nat.not_lt_zero _)
  | succ fuel ih =>
    intro m attempts count hnd hinv hmeas
    by_cases hlt : m.index < m.queue.length
    · have hstep : m.next_card
          = (some (m.queue.get ⟨m.index, hlt⟩), { m with index := m.index + 1 }) := by
        simp [AdaptiveMode.next_card, hlt]
      set id := m.queue.get ⟨m.index, hlt⟩ with hid_def
      set m1 : AdaptiveMode Nat := { m with index := m.index + 1 } with hm1
      have hpend : m.pending = id :: m1.pending := by
        simp only [AdaptiveMode.pending, hm1]
        rw [List.drop_eq_getElem_cons hlt]
        simp [hid_def]
      have hidmem : id ∈ m.pending := by
        rw [hpend]
        exact List.mem_cons_self _ _
      obtain ⟨ha, hK⟩ := hinv id hidmem
      have hnd1 : id ∉ m1.pending ∧ m1.pending.Nodup := by
        rw [hpend] at hnd
        exact List.nodup_cons.mp hnd
      have hmapeq : m1.pending.map
            (fun j => K j - (if j = id then attempts j + 1 else attempts j) + 1)
          = m1.pending.map (fun j => K j - attempts j + 1) := by
        apply List.map_congr_left
        intro j hj
        have hjne : j ≠ id := fun h => hnd1.1 (h ▸ hj)
        simp [hjne]
      have hm : m.playMeasure K attempts
          = (K id - attempts id + 1)
            + (m1.pending.map (fun j => K j - attempts j + 1)).sum := by
        simp [AdaptiveMode.playMeasure, hpend]
      cases hc : ans id (attempts id) with
      | false =>
        have haK : attempts id < K id := by
          rcases Nat.lt_or_ge (attempts id) (K id) with h | h
          · exact h
          · exfalso
            have heq : attempts id = K id := Nat.le_antisymm ha h
            rw [heq, hK] at hc
            cases hc
        have hplay : AdaptiveMode.play ans (fuel + 1) m attempts count
            = AdaptiveMode.play ans fuel (m1.record_result id false)
                (fun j => if j = id then attempts j + 1 else attempts j)
                (count + 1) := by
          rw [AdaptiveMode.play, hstep]
          dsimp only
          rw [hc]
        have hpend2 : (m1.record_result id false).pending
            = m1.pending ++ [id] := by
          simp only [AdaptiveMode.record_result, if_neg Bool.false_ne_true,
            AdaptiveMode.pending, hm1]
          rw [List.drop_append_of_le_length (by omega : m.index + 1 ≤ m.queue.length)]
        have hnd2 : (m1.record_result id false).pending.Nodup := by
          rw [hpend2]
          simp only [List.nodup_append, List.nodup_cons, List.not_mem_nil,
            not_false_iff, List.nodup_nil, and_true, true_and]
          constructor
          · exact hnd1.2
          · intro x hx hx1
            have : x = id := by simpa using hx1
            exact hnd1.1 (this ▸ hx)
        have hinv2 : ∀ j ∈ (m1.record_result id false).pending,
            (if j = id then attempts j + 1 else attempts j) ≤ K j
            ∧ ans j (K j) = true := by
          intro j hj
          rw [hpend2] at hj
          rcases List.mem_append.mp hj with hj | hj
          · have hjne : j ≠ id := fun h => hnd1.1 (h ▸ hj)
            have := hinv j (by rw [hpend]; exact List.mem_cons_of_mem _ hj)
            simpa [hjne] using this
          · have hj' : j = id := by simpa using hj
            subst hj'
            constructor
            · have hif : (if id = id then attempts id + 1 else attempts id)
                  = attempts id + 1 := by simp
              rw [hif]
              omega
            · exact hK
        have hmeas2 : (m1.record_result id false).playMeasure K
            (fun j => if j = id then attempts j + 1 else attempts j) < fuel := by
          have hm2 : (m1.record_result id false).playMeasure K
              (fun j => if j = id then attempts j + 1 else attempts j)
              = (m1.pending.map (fun j => K j - attempts j + 1)).sum
                + (K id - (attempts id + 1) + 1) := by
            simp [AdaptiveMode.playMeasure, hpend2, hmapeq]
          rw [hm] at hmeas
          rw [hm2]
          omega
        obtain ⟨q, hq, hcount⟩ := ih (m1.record_result id false)
          (fun j => if j = id then attempts j + 1 else attempts j)
          (count + 1) hnd2 hinv2 hmeas2
        refine ⟨q, by rw [hplay]; exact hq, ?_⟩
        have hlen2 : (m1.record_result id false).pending.length
            = m1.pending.length + 1 := by
          rw [hpend2]
          simp
        have hlen0 : m.pending.length = m1.pending.length + 1 := by
          rw [hpend]
          simp
        omega
      | true =>
        have hrec : m1.record_result id true = m1 := by
          simp [AdaptiveMode.record_result]
        have hplay : AdaptiveMode.play ans (fuel + 1) m attempts count
            = AdaptiveMode.play ans fuel m1
                (fun j => if j = id then attempts j + 1 else attempts j)
                (count + 1) := by
          rw [AdaptiveMode.play, hstep]
          dsimp only
          rw [hc, hrec]
        have hinv2 : ∀ j ∈ m1.pending,
            (if j = id then attempts j + 1 else attempts j) ≤ K j
            ∧ ans j (K j) = true := by
          intro j hj
          have hjne : j ≠ id := fun h => hnd1.1 (h ▸ hj)
          have := hinv j (by rw [hpend]; exact List.mem_cons_of_mem _ hj)
          simpa [hjne] using this
        have hmeas2 : m1.playMeasure K
            (fun j => if j = id then attempts j + 1 else attempts j) < fuel := by
          have hm2 : m1.playMeasure K
              (fun j => if j = id then attempts j + 1 else attempts j)
              = (m1.pending.map (fun j => K j - attempts j + 1)).sum := by
            simp [AdaptiveMode.playMeasure, hmapeq]
          rw [hm] at hmeas
          rw [hm2]
          omega
        obtain ⟨q, hq, hcount⟩ := ih m1
          (fun j => if j = id then attempts j + 1 else attempts j)
          (count + 1) hnd1.2 hinv2 hmeas2
        refine ⟨q, by rw [hplay]; exact hq, ?_⟩
        have hlen0 : m.pending.length = m1.pending.length + 1 := by
          rw [hpend]
          simp
        omega
    · have hstep : m.next_card = (none, m) := by
        simp [AdaptiveMode.next_card, hlt]
      have hpend0 : m.pending = [] := by
        simp [AdaptiveMode.pending,
          List.drop_eq_nil_of_le (Nat.le_of_not_lt hlt)]
      refine ⟨count, ?_, ?_⟩
      · rw [AdaptiveMode.play, hstep]
      · rw [hpend0]
        simp

/-- C6: over a deck of `N` cards under the Adaptive strategy, if every
card is eventually answered correctly (attempt `K id` of card `id` is
correct, so each card is answered incorrectly at most finitely often),
the session loop terminates within the explicitly given finite fuel,
and the number of questions asked is at least `N`. -/
theorem adaptive_eventually_correct_terminates (N : Nat)
    (ans : Nat → Nat → Bool) (K : Nat → Nat)
    (hK : ∀ id, id < N → ans id (K id) = true) :
    ∃ q, AdaptiveMode.play ans
        (((List.range N).map (fun id => K id + 1)).sum + 1)
        (AdaptiveMode.init (List.range N)) (fun _ => 0) 0 = some q
      ∧ N ≤ q := by
  have hpend : (AdaptiveMode.init (List.range N)).pending = List.range N := by
    simp [AdaptiveMode.pending, AdaptiveMode.init]
  have hnd : (AdaptiveMode.init (List.range N)).pending.Nodup := by
    rw [hpend]
    exact List.nodup_range N
  have hinv : ∀ id ∈ (AdaptiveMode.init (List.range N)).pending,
      (fun _ => 0) id ≤ K id ∧ ans id (K id) = true := by
    intro id hid
    rw [hpend] at hid
    exact ⟨Nat.zero_le _, hK id (List.mem_range.mp hid)⟩
  have hmeas : (AdaptiveMode.init (List.range N)).playMeasure K (fun _ => 0)
      < ((List.range N).map (fun id => K id + 1)).sum + 1 := by
    have : (AdaptiveMode.init (List.range N)).playMeasure K (fun _ => 0)
        = ((List.range N).map (fun id => K id + 1)).sum := by
      simp [AdaptiveMode.playMeasure, hpend]
    omega
  obtain ⟨q, hq, hle⟩ := AdaptiveMode.play_spec ans K
    (((List.range N).map (fun id => K id + 1)).sum + 1)
    (AdaptiveMode.init (List.range N)) (fun _ => 0) 0 hnd hinv hmeas
  refine ⟨q, hq, ?_⟩
  rw [hpend] at hle
  simpa using hle

/-- Witness for C6: two cards, each answered wrong once then right;
the session terminates and asks at least 2 (in fact 4) questions. -/
theorem adaptive_eventually_correct_terminates_witness :
    (∀ id, id < 2 → (fun _ k => decide (1 ≤ k)) id ((fun _ => 1) id) = true)
    ∧ ∃ q, AdaptiveMode.play (fun _ k => decide (1 ≤ k))
        (((List.range 2).map (fun id => (fun _ => 1) id + 1)).sum + 1)
        (AdaptiveMode.init (List.range 2)) (fun _ => 0) 0 = some q
      ∧ 2 ≤ q := by
  have hK : ∀ id, id < 2 → (fun _ k => decide (1 ≤ k)) id ((fun _ => 1) id)
      = true := by decide
  exact ⟨hK, adaptive_eventually_correct_terminates 2
    (fun _ k => decide (1 ≤ k)) (fun _ => 1) hK⟩

end Quiz
